import Mathlib

/-!
Verification development for the llm_fastapi_mq repository: a shallow
embedding of the admission-control and streaming-relay subsystem
(src/app/tasks/llm_tasks.py, src/app/api/main.py, src/app/api/proxy.py)
together with theorems settling the frozen claims about it.

Numbers that are clock readings or token counts are modelled as rationals,
matching the arbitrary-precision arithmetic of the Lua script and of
Python floats at the granularity the claims need.
-/

namespace LlmMq

/-- A rate-limit bucket as stored in the Redis hash written by the Lua
script of `RateLimiter.acquire` (src/app/tasks/llm_tasks.py, lines 58-86):
fields `tokens` and `last_update`. -/
structure Bucket where
  tokens : ℚ
  last_update : ℚ
deriving DecidableEq, Repr

/-- One atomic execution of the Lua script inside `RateLimiter.acquire`
(src/app/tasks/llm_tasks.py, lines 58-86).  `st = none` models a missing
key (first use or after EXPIRE): the script then reads `tokens = rate` and
`last_update = now`.  It computes `elapsed = now - last_update`,
`refill = (elapsed / period) * rate`, `tokens = min(rate, tokens + refill)`;
if `tokens >= requested` it debits and stores `(tokens - requested, now)`
and returns 1 (granted), otherwise it writes nothing and returns 0.
The result is `(granted, stored state after the call)`. -/
def scriptStep (rate period requested now : ℚ) (st : Option Bucket) :
    Bool × Option Bucket :=
  let tokens0 := match st with | none => rate | some b => b.tokens
  let last_update := match st with | none => now | some b => b.last_update
  let elapsed := now - last_update
  let refill := elapsed / period * rate
  let tokens := min rate (tokens0 + refill)
  if requested ≤ tokens then
    (true, some ⟨tokens - requested, now⟩)
  else
    (false, st)

/-- The refilled token count the script computes before deciding, as a
standalone function of the stored state. -/
def refilled (rate period now : ℚ) (st : Option Bucket) : ℚ :=
  let tokens0 := match st with | none => rate | some b => b.tokens
  let last_update := match st with | none => now | some b => b.last_update
  min rate (tokens0 + (now - last_update) / period * rate)

/-- The stored token count of a bucket state is inside `[0, rate]`
(the script's capacity equals its `rate` argument); a missing key
trivially satisfies this. -/
def BucketInv (rate : ℚ) (st : Option Bucket) : Prop :=
  match st with
  | none => True
  | some b => 0 ≤ b.tokens ∧ b.tokens ≤ rate

instance (rate : ℚ) : (st : Option Bucket) → Decidable (BucketInv rate st)
  | none => isTrue trivial
  | some b => inferInstanceAs (Decidable (0 ≤ b.tokens ∧ b.tokens ≤ rate))

/-- A sequence of script executions against one bucket key; each operation
is a pair `(requested, now)`. -/
def runAcquires (rate period : ℚ) (ops : List (ℚ × ℚ)) (st : Option Bucket) :
    Option Bucket :=
  ops.foldl (fun s op => (scriptStep rate period op.1 op.2 s).2) st

theorem scriptStep_eq (rate period requested now : ℚ) (st : Option Bucket) :
    scriptStep rate period requested now st =
      if requested ≤ refilled rate period now st then
        (true, some ⟨refilled rate period now st - requested, now⟩)
      else (false, st) := by
  cases st <;> rfl

theorem scriptStep_inv (rate period requested now : ℚ) (s : Option Bucket)
    (hreq : 0 ≤ requested) (hs : BucketInv rate s) :
    BucketInv rate (scriptStep rate period requested now s).2 := by
  rw [scriptStep_eq]
  split
  · next h =>
    have h1 : refilled rate period now s ≤ rate := by
      unfold refilled
      exact min_le_left _ _
    refine ⟨?_, ?_⟩
    · show 0 ≤ refilled rate period now s - requested
      linarith
    · show refilled rate period now s - requested ≤ rate
      linarith
  · exact hs

theorem runAcquires_inv (rate period : ℚ) :
    ∀ (ops : List (ℚ × ℚ)) (st : Option Bucket), BucketInv rate st →
      (∀ op ∈ ops, 0 ≤ op.1) → BucketInv rate (runAcquires rate period ops st)
  | [], st, hst, _ => hst
  | op :: rest, st, hst, hops => by
    have h1 : BucketInv rate (scriptStep rate period op.1 op.2 st).2 :=
      scriptStep_inv rate period op.1 op.2 st (hops op (List.mem_cons_self op rest)) hst
    have h2 : ∀ o ∈ rest, 0 ≤ o.1 := fun o ho => hops o (List.mem_cons_of_mem op ho)
    exact runAcquires_inv rate period rest _ h1 h2

/-- Claim C2: for every RateBucket and every sequence of acquire
operations with nonnegative requests, the stored token count stays in the
closed interval `[0, capacity]` after every prefix of the sequence
(capacity being the script's `rate`), and each script execution is a
single atomic read-modify-write: its result is either the untouched prior
state (denial) or the state where refill and debit have both been applied
in one transition — no intermediate refilled-but-not-debited state is
ever stored. -/
theorem C2_bucket_invariant (rate period : ℚ) (ops : List (ℚ × ℚ))
    (st : Option Bucket) (hst : BucketInv rate st)
    (hreq : ∀ op ∈ ops, 0 ≤ op.1) :
    (∀ pre, pre <+: ops → BucketInv rate (runAcquires rate period pre st)) ∧
    (∀ requested now s, scriptStep rate period requested now s =
        if requested ≤ refilled rate period now s then
          (true, some ⟨refilled rate period now s - requested, now⟩)
        else (false, s)) := by
  refine ⟨fun pre hpre => ?_, fun requested now s => scriptStep_eq _ _ _ _ _⟩
  exact runAcquires_inv rate period pre st hst
    (fun op hop => hreq op (hpre.subset hop))

theorem C2_bucket_invariant_witness :
    BucketInv 5 (runAcquires 5 60 [(1, 0), (1, 1)] none) :=
  (C2_bucket_invariant 5 60 [(1, 0), (1, 1)] none (by decide) (by decide)).1
    [(1, 0), (1, 1)] (List.prefix_rfl)

/-- One observable action of the retry loop in `RateLimiter.acquire`:
a script attempt at clock `now` with its outcome, or a `time.sleep`. -/
inductive AcqAction where
  | attempt (now : ℚ) (granted : Bool)
  | sleep (d : ℚ)
deriving DecidableEq, Repr

/-- The retry loop of `RateLimiter.acquire` (src/app/tasks/llm_tasks.py,
lines 53-98).  Clock readings are an input stream consumed one pair per
iteration: `tCond` for the `while time.time() - start < timeout` test and
`tEval` passed to the script as `now`.  The loop runs the script; on grant
it returns True, otherwise it sleeps 0.1 s and retries; when the while
condition fails it returns False.  An exhausted clock stream also yields
False (the trace covers only that many iterations).  The result is
`(granted, stored bucket state, trace of actions)`. -/
def acquireLoop (rate period requested start timeout : ℚ) :
    List (ℚ × ℚ) → Option Bucket → Bool × Option Bucket × List AcqAction
  | [], st => (false, st, [])
  | (tCond, tEval) :: rest, st =>
    if tCond - start < timeout then
      match scriptStep rate period requested tEval st with
      | (true, st1) => (true, st1, [.attempt tEval true])
      | (false, st1) =>
        let k := acquireLoop rate period requested start timeout rest st1
        (k.1, k.2.1, .attempt tEval false :: .sleep (1 / 10) :: k.2.2)
    else (false, st, [])

theorem acquireLoop_cons (rate period requested start timeout tCond tEval : ℚ)
    (rest : List (ℚ × ℚ)) (st : Option Bucket) :
    acquireLoop rate period requested start timeout ((tCond, tEval) :: rest) st =
      if tCond - start < timeout then
        match scriptStep rate period requested tEval st with
        | (true, st1) => (true, st1, [.attempt tEval true])
        | (false, st1) =>
          let k := acquireLoop rate period requested start timeout rest st1
          (k.1, k.2.1, .attempt tEval false :: .sleep (1 / 10) :: k.2.2)
      else (false, st, []) := rfl

/-- Modelled from the claim C3 sentence: one token-bucket step —
`refill = (elapsed / period) * rate`,
`tokens = min(capacity, tokens + refill)`; if the refilled count is at
least the requested amount, debit and persist `(tokens, now)` and report
granted; otherwise persist nothing and report denied.  A missing stored
bucket reads as a full bucket refilled just now, the initialization the
script uses (see C10). -/
def specBucketStep (capacity rate period requested now : ℚ) (st : Option Bucket) :
    Bool × Option Bucket :=
  let tokens0 := match st with | none => capacity | some b => b.tokens
  let last_refill := match st with | none => now | some b => b.last_update
  let elapsed := now - last_refill
  let refill := elapsed / period * rate
  let tokens := min capacity (tokens0 + refill)
  if requested ≤ tokens then
    (true, some ⟨tokens - requested, now⟩)
  else
    (false, st)

/-- Modelled from the claim C3 sentence: the acquire loop — on each attempt
run the token-bucket step; on grant return granted (True); otherwise sleep
the fixed 0.1 s interval and retry; return denied (False) once
`wait_timeout` has elapsed without a grant.  Clock readings are consumed
exactly as in `acquireLoop`. -/
def specAcquire (capacity rate period requested start wait_timeout : ℚ) :
    List (ℚ × ℚ) → Option Bucket → Bool × Option Bucket × List AcqAction
  | [], st => (false, st, [])
  | (tNow, tScript) :: rest, st =>
    if tNow - start < wait_timeout then
      match specBucketStep capacity rate period requested tScript st with
      | (true, st1) => (true, st1, [.attempt tScript true])
      | (false, _) =>
        let k := specAcquire capacity rate period requested start wait_timeout rest st
        (k.1, k.2.1, .attempt tScript false :: .sleep (1 / 10) :: k.2.2)
    else (false, st, [])

theorem specAcquire_cons (capacity rate period requested start wait_timeout
    tNow tScript : ℚ) (rest : List (ℚ × ℚ)) (st : Option Bucket) :
    specAcquire capacity rate period requested start wait_timeout
        ((tNow, tScript) :: rest) st =
      if tNow - start < wait_timeout then
        match specBucketStep capacity rate period requested tScript st with
        | (true, st1) => (true, st1, [.attempt tScript true])
        | (false, _) =>
          let k := specAcquire capacity rate period requested start wait_timeout rest st
          (k.1, k.2.1, .attempt tScript false :: .sleep (1 / 10) :: k.2.2)
      else (false, st, []) := rfl

theorem specBucketStep_eq_scriptStep (rate period requested now : ℚ)
    (st : Option Bucket) :
    specBucketStep rate rate period requested now st =
      scriptStep rate period requested now st := rfl

theorem scriptStep_denied_state (rate period requested now : ℚ)
    {st st1 : Option Bucket}
    (h : scriptStep rate period requested now st = (false, st1)) : st1 = st := by
  rw [scriptStep_eq] at h
  split at h
  · cases h
  · cases h
    rfl

/-- Claim C3: `RateLimiter.acquire` implements exactly the specified
token-bucket loop — refill `(elapsed / period) * rate`, cap at capacity
(the script's capacity is its `rate` argument), debit-and-persist on
grant, 0.1-second sleep between attempts, denial once `wait_timeout` has
elapsed — for every parameterization, clock stream and starting state. -/
theorem C3_acquire_refines_spec (rate period requested start timeout : ℚ) :
    ∀ (clocks : List (ℚ × ℚ)) (st : Option Bucket),
      acquireLoop rate period requested start timeout clocks st =
        specAcquire rate rate period requested start timeout clocks st := by
  intro clocks
  induction clocks with
  | nil => intro st; rfl
  | cons c rest ih =>
    obtain ⟨tCond, tEval⟩ := c
    intro st
    rw [acquireLoop_cons, specAcquire_cons, specBucketStep_eq_scriptStep]
    by_cases hw : tCond - start < timeout
    · rw [if_pos hw, if_pos hw]
      rcases h : scriptStep rate period requested tEval st with ⟨g, st1⟩
      cases g
      · have hst1 : st1 = st := scriptStep_denied_state rate period requested tEval h
        subst hst1
        simp only [ih]
      · rfl
    · rw [if_neg hw, if_neg hw]

/-- Claim C10: on a bucket key that does not exist yet (first use or after
expiry) the script initializes the bucket at full capacity, so a request
of at most `capacity` tokens is granted on the very first loop attempt —
the trace is a single granting attempt, with no sleep and no wait for
refill — and the persisted state is `(capacity - requested, now)`. -/
theorem C10_fresh_bucket_grant (rate period requested start timeout tCond tEval : ℚ)
    (clocks : List (ℚ × ℚ))
    (hwin : tCond - start < timeout) (hreq : requested ≤ rate) :
    acquireLoop rate period requested start timeout ((tCond, tEval) :: clocks) none =
      (true, some ⟨rate - requested, tEval⟩, [.attempt tEval true]) := by
  unfold acquireLoop
  rw [if_pos hwin, scriptStep_eq]
  have hr : refilled rate period tEval none = rate := by
    unfold refilled
    simp
  rw [hr, if_pos hreq]

theorem C10_fresh_bucket_grant_witness :
    acquireLoop 5 60 5 0 30 [(0, 0)] none =
      (true, some ⟨0, 0⟩, [.attempt 0 true]) := by
  have h := C10_fresh_bucket_grant 5 60 5 0 30 0 0 [] (by norm_num) (by norm_num)
  simpa using h

/-- The JSON messages published on the session channel
`llm:stream:{session_id}` (src/app/tasks/llm_tasks.py): a `status started`
notice with the task id, a `chunk` with content and 1-based index, a
streaming `complete` with `total_chunks`, a synchronous `complete` with
the full content, or an `error` with a message. -/
inductive StreamEvent where
  | status (s : String) (task_id : String)
  | chunk (content : String) (index : ℕ)
  | completeStream (total_chunks : ℕ)
  | completeSync (content : String)
  | error (msg : String)
deriving DecidableEq, Repr

/-- Terminal events per the relay's check `parsed.get("type") in
("complete", "error")` (src/app/api/main.py, line 232). -/
def isTerminal : StreamEvent → Bool
  | .completeStream _ => true
  | .completeSync _ => true
  | .error _ => true
  | _ => false

def isErrorEvt : StreamEvent → Bool
  | .error _ => true
  | _ => false

def isCompleteEvt : StreamEvent → Bool
  | .completeStream _ => true
  | .completeSync _ => true
  | _ => false

/-- The chunk-publishing loop of `_stream_completion`
(src/app/tasks/llm_tasks.py, lines 192-201).  Each unit yielded by the
remote stream is modelled as `Option String`: `none` when
`chunk.choices` is empty or `delta.content` is `None`; the Python
truthiness test also skips an empty string.  For each unit with content
the counter is incremented and a `chunk` event carrying that 1-based
index is published.  Returns the published events and the final
`chunks_count`; the counter starts at `n`. -/
def streamLoop : List (Option String) → ℕ → List StreamEvent × ℕ
  | [], n => ([], n)
  | c :: rest, n =>
    match c with
    | some s =>
      if s = "" then streamLoop rest n
      else
        let r := streamLoop rest (n + 1)
        (.chunk s (n + 1) :: r.1, r.2)
    | none => streamLoop rest n

/-- Events published by `_stream_completion` (src/app/tasks/llm_tasks.py,
lines 180-215): all chunk events, then one `complete` carrying
`total_chunks`. -/
def streamCompletion (cs : List (Option String)) : List StreamEvent :=
  let r := streamLoop cs 0
  r.1 ++ [.completeStream r.2]

/-- The content units the Python guard actually publishes: present and
non-empty. -/
def contentsOf (cs : List (Option String)) : List String :=
  cs.filterMap (fun c =>
    match c with
    | some s => if s = "" then none else some s
    | none => none)

/-- Modelled from the claim C4 sentence: chunk events with consecutive
1-based indexes and no gaps, starting above `n`. -/
def indexedChunks : List String → ℕ → List StreamEvent
  | [], _ => []
  | s :: rest, n => .chunk s (n + 1) :: indexedChunks rest (n + 1)

/-- The Relay Reader view used by the scenario: forward events until (and
including) the first terminal event. -/
def relayRead : List StreamEvent → List StreamEvent
  | [] => []
  | e :: rest => if isTerminal e then [e] else e :: relayRead rest

theorem streamLoop_eq (cs : List (Option String)) :
    ∀ n, streamLoop cs n =
      (indexedChunks (contentsOf cs) n, n + (contentsOf cs).length) := by
  induction cs with
  | nil => intro n; simp [streamLoop, contentsOf, indexedChunks]
  | cons c rest ih =>
    intro n
    cases c with
    | none => simpa [streamLoop, contentsOf] using ih n
    | some s =>
      by_cases hs : s = ""
      · simpa [streamLoop, contentsOf, hs] using ih n
      · simp [streamLoop, contentsOf, indexedChunks, hs, ih (n + 1),
          Prod.ext_iff]
        omega

/-- Claim C4: every content unit produced by the remote stream becomes a
`chunk` event in production order with consecutive 1-based indexes and no
gaps, followed by a single `complete` event carrying the total number of
units; in the three-chunk scenario a reader that reads until terminal
observes exactly the three chunks, indexed 1, 2, 3, then `complete 3`. -/
theorem C4_stream_chunk_order :
    (∀ cs, streamCompletion cs =
      indexedChunks (contentsOf cs) 0 ++
        [.completeStream (contentsOf cs).length]) ∧
    relayRead (streamCompletion [some "a", some "b", some "c"]) =
      [.chunk "a" 1, .chunk "b" 2, .chunk "c" 3, .completeStream 3] := by
  constructor
  · intro cs
    unfold streamCompletion
    rw [streamLoop_eq cs 0]
    simp
  · rfl

/-- The per-attempt outcome of one Celery execution of `chat_completion`
(src/app/tasks/llm_tasks.py, lines 113-177): the rate limiter denied
within its 30 s window; a `SoftTimeLimitExceeded` after some streamed
prefix; a streaming run to completion; a remote failure after a streamed
prefix; a synchronous success; a synchronous failure. -/
inductive AttemptOutcome where
  | rateDenied
  | softLimit (pre : List (Option String))
  | streamOk (cs : List (Option String))
  | streamErr (pre : List (Option String)) (msg : String)
  | syncOk (content : String)
  | syncErr (msg : String)
deriving DecidableEq, Repr

/-- The events one execution attempt of `chat_completion` publishes on the
session channel: always the `status started` first (lines 141-145); then,
per outcome, the events of the taken branch, every exception handler
ending in exactly one `error` publication (lines 163-177). -/
def attemptEvents (taskId : String) : AttemptOutcome → List StreamEvent
  | .rateDenied =>
    [.status "started" taskId, .error "Rate limit timeout - trop de requêtes"]
  | .softLimit pre =>
    .status "started" taskId ::
      ((streamLoop pre 0).1 ++ [.error "Timeout: la requête a pris trop de temps"])
  | .streamOk cs => .status "started" taskId :: streamCompletion cs
  | .streamErr pre msg =>
    .status "started" taskId :: ((streamLoop pre 0).1 ++ [.error msg])
  | .syncOk content => [.status "started" taskId, .completeSync content]
  | .syncErr msg => [.status "started" taskId, .error msg]

/-- Whether the attempt re-raises its exception (triggering Celery
`autoretry_for=(Exception,)`); successful branches return normally. -/
def attemptRaises : AttemptOutcome → Bool
  | .streamOk _ => false
  | .syncOk _ => false
  | _ => true

inductive TaskState where
  | succeeded
  | failed
deriving DecidableEq, Repr

/-- The task-status outcome of one attempt: an attempt that raises ends
failed, one that returns ends succeeded. -/
def attemptStatus (o : AttemptOutcome) : TaskState :=
  if attemptRaises o then .failed else .succeeded

/-- All events a session's subscribers can receive over the task's whole
lifetime: the concatenation of each execution attempt's publications, in
attempt order (Celery re-executes the same task body on each retry). -/
def taskLifetime (taskId : String) (attempts : List AttemptOutcome) :
    List StreamEvent :=
  (attempts.map (attemptEvents taskId)).flatten

/-- A lifetime the Celery configuration can produce
(`max_retries=3`, `autoretry_for=(Exception,)`): at least one attempt, at
most four, and every attempt before the last raised (only a raising
attempt is retried). -/
def ValidLifetime (attempts : List AttemptOutcome) : Prop :=
  attempts ≠ [] ∧ attempts.length ≤ 4 ∧
    ∀ o ∈ attempts.dropLast, attemptRaises o = true

instance (attempts : List AttemptOutcome) : Decidable (ValidLifetime attempts) :=
  inferInstanceAs (Decidable (_ ∧ _ ∧ _))

theorem streamLoop_countP_zero (p : StreamEvent → Bool)
    (hp : ∀ s k, p (.chunk s k) = false) :
    ∀ (cs : List (Option String)) (n : ℕ), ((streamLoop cs n).1).countP p = 0 := by
  intro cs
  induction cs with
  | nil => intro n; rfl
  | cons c rest ih =>
    intro n
    cases c with
    | none => simpa [streamLoop] using ih n
    | some s =>
      by_cases hs : s = ""
      · simpa [streamLoop, hs] using ih n
      · simp [streamLoop, hs, List.countP_cons, hp, ih (n + 1)]

theorem countP_terminal_attempt (taskId : String) (o : AttemptOutcome) :
    (attemptEvents taskId o).countP isTerminal = 1 := by
  cases o with
  | rateDenied => rfl
  | softLimit pre =>
    simp [attemptEvents, List.countP_cons, List.countP_append, isTerminal,
      streamLoop_countP_zero isTerminal (fun s k => rfl) pre 0]
  | streamOk cs =>
    simp [attemptEvents, streamCompletion, List.countP_cons, List.countP_append,
      isTerminal, streamLoop_countP_zero isTerminal (fun s k => rfl) cs 0]
  | streamErr pre msg =>
    simp [attemptEvents, List.countP_cons, List.countP_append, isTerminal,
      streamLoop_countP_zero isTerminal (fun s k => rfl) pre 0]
  | syncOk content => rfl
  | syncErr msg => rfl

theorem getLast?_cons_of_getLast? {α : Type} (a : α) {l : List α} {y : α}
    (h : l.getLast? = some y) : (a :: l).getLast? = some y := by
  cases l with
  | nil => cases h
  | cons b t => rw [List.getLast?_cons_cons]; exact h

theorem attempt_last_terminal (taskId : String) (o : AttemptOutcome) :
    ∃ e, (attemptEvents taskId o).getLast? = some e ∧ isTerminal e = true := by
  cases o with
  | rateDenied => exact ⟨_, rfl, rfl⟩
  | softLimit pre =>
    refine ⟨.error "Timeout: la requête a pris trop de temps", ?_, rfl⟩
    exact getLast?_cons_of_getLast? _ (List.getLast?_concat _)
  | streamOk cs =>
    refine ⟨.completeStream (streamLoop cs 0).2, ?_, rfl⟩
    exact getLast?_cons_of_getLast? _ (List.getLast?_concat _)
  | streamErr pre msg =>
    refine ⟨.error msg, ?_, rfl⟩
    exact getLast?_cons_of_getLast? _ (List.getLast?_concat _)
  | syncOk content => exact ⟨_, rfl, rfl⟩
  | syncErr msg => exact ⟨_, rfl, rfl⟩

/-- Claim C1 `counterexample`: a lifetime the retry configuration allows —
a first streaming attempt that fails before any chunk, retried, then a
second attempt that succeeds — publishes two terminal events for the
session (an `error`, then a `complete`), refuting "exactly one terminal
event over the whole lifetime of the task, across all attempts including
retries"; the first terminal event is also not the last event a patient
subscriber observes. -/
theorem C1_terminal_counterexample :
    ValidLifetime [.streamErr [] "boom", .streamOk [some "a"]] ∧
    (taskLifetime "t" [.streamErr [] "boom", .streamOk [some "a"]]).countP
        isTerminal = 2 ∧
    ¬ (taskLifetime "t" [.streamErr [] "boom", .streamOk [some "a"]]).countP
        isTerminal = 1 := by
  refine ⟨⟨by decide, by decide, ?_⟩, by decide, by decide⟩
  decide

/-- Claim C1 as amended: each execution attempt publishes exactly one
terminal event, and it is the last event of that attempt's publications;
over the whole lifetime the number of terminal events equals the number
of execution attempts — at least one, but more than one whenever the
task is retried after a failed attempt. -/
theorem taskLifetime_countP (taskId : String) :
    ∀ attempts : List AttemptOutcome,
      (taskLifetime taskId attempts).countP isTerminal = attempts.length
  | [] => rfl
  | o :: rest => by
    have ih := taskLifetime_countP taskId rest
    show ((List.map (attemptEvents taskId) (o :: rest)).flatten).countP isTerminal
        = rest.length + 1
    rw [List.map_cons, List.flatten_cons, List.countP_append]
    rw [show (List.map (attemptEvents taskId) rest).flatten
        = taskLifetime taskId rest from rfl]
    rw [ih, countP_terminal_attempt]
    omega

theorem C1_terminal_per_attempt (taskId : String)
    (attempts : List AttemptOutcome) (h : ValidLifetime attempts) :
    (∀ o, (attemptEvents taskId o).countP isTerminal = 1 ∧
      ∃ e, (attemptEvents taskId o).getLast? = some e ∧ isTerminal e = true) ∧
    (taskLifetime taskId attempts).countP isTerminal = attempts.length ∧
    1 ≤ (taskLifetime taskId attempts).countP isTerminal := by
  have hcount : (taskLifetime taskId attempts).countP isTerminal =
      attempts.length := taskLifetime_countP taskId attempts
  refine ⟨fun o => ⟨countP_terminal_attempt taskId o,
    attempt_last_terminal taskId o⟩, hcount, ?_⟩
  rw [hcount]
  rcases attempts with _ | ⟨a, rest⟩
  · exact absurd rfl h.1
  · simp

theorem C1_terminal_per_attempt_witness :
    (∀ o, (attemptEvents "t" o).countP isTerminal = 1 ∧
      ∃ e, (attemptEvents "t" o).getLast? = some e ∧ isTerminal e = true) ∧
    (taskLifetime "t" [.syncOk "hi"]).countP isTerminal = 1 ∧
    1 ≤ (taskLifetime "t" [.syncOk "hi"]).countP isTerminal := by
  have h := C1_terminal_per_attempt "t" [.syncOk "hi"] (by decide)
  simpa using h

/-- Claim C5: for every execution attempt in which an exception is raised
(rate-limit timeout, soft time limit, or any remote failure), exactly one
`error` event is published for that attempt, no `complete` event is
published on that path, and the attempt ends with the task failed. -/
theorem C5_error_path (taskId : String) (o : AttemptOutcome)
    (h : attemptRaises o = true) :
    (attemptEvents taskId o).countP isErrorEvt = 1 ∧
    (attemptEvents taskId o).countP isCompleteEvt = 0 ∧
    attemptStatus o = .failed := by
  refine ⟨?_, ?_, by simp [attemptStatus, h]⟩
  · cases o with
    | rateDenied => rfl
    | softLimit pre =>
      simp [attemptEvents, List.countP_cons, List.countP_append, isErrorEvt,
        streamLoop_countP_zero isErrorEvt (fun s k => rfl) pre 0]
    | streamOk cs => cases h
    | streamErr pre msg =>
      simp [attemptEvents, List.countP_cons, List.countP_append, isErrorEvt,
        streamLoop_countP_zero isErrorEvt (fun s k => rfl) pre 0]
    | syncOk content => cases h
    | syncErr msg => rfl
  · cases o with
    | rateDenied => rfl
    | softLimit pre =>
      simp [attemptEvents, List.countP_cons, List.countP_append, isCompleteEvt,
        streamLoop_countP_zero isCompleteEvt (fun s k => rfl) pre 0]
    | streamOk cs => cases h
    | streamErr pre msg =>
      simp [attemptEvents, List.countP_cons, List.countP_append, isCompleteEvt,
        streamLoop_countP_zero isCompleteEvt (fun s k => rfl) pre 0]
    | syncOk content => cases h
    | syncErr msg => rfl

theorem C5_error_path_witness :
    (attemptEvents "t" (.syncErr "boom")).countP isErrorEvt = 1 ∧
    (attemptEvents "t" (.syncErr "boom")).countP isCompleteEvt = 0 ∧
    attemptStatus (.syncErr "boom") = .failed :=
  C5_error_path "t" (.syncErr "boom") (by decide)

/-- The data field of one Redis pub/sub delivery as the relay decodes it:
either a JSON object the `json.loads` call parses into a stream event, or
an unparseable string (the `except` around the parse passes and the loop
continues). -/
inductive MsgData where
  | event (e : StreamEvent)
  | invalid (raw : String)
deriving DecidableEq, Repr

/-- One item produced by `pubsub.listen()`: a control notification such as
the subscribe confirmation (its `type` is not `"message"`), or a payload
message. -/
inductive PubsubMsg where
  | control
  | message (d : MsgData)
deriving DecidableEq, Repr

/-- One item the SSE event generator yields to its caller: a forwarded
`data:` payload, or the synthetic timeout event. -/
inductive RelayItem where
  | fwd (d : MsgData)
  | timeoutEvt
deriving DecidableEq, Repr

/-- How a run of the event generator ended: it forwarded a terminal event;
it noticed the deadline and emitted the synthetic timeout; the caller
disconnected (`asyncio.CancelledError`); or the finite input trace ran out
while it was still listening (the generator has not terminated). -/
inductive ExitReason where
  | terminal
  | timedOut
  | cancelled
  | listening
deriving DecidableEq, Repr

/-- Result of running the generator over a trace: what it yielded, why it
stopped, and whether the `finally` block (unsubscribe then close of the
pub/sub channel) has run. -/
structure RelayResult where
  output : List RelayItem
  exitKind : ExitReason
  cleanedUp : Bool
deriving DecidableEq, Repr

/-- The event generator of `stream_sse` (src/app/api/main.py, lines
209-241) over a finite trace of received pubsub items, each stamped with
the clock reading at which the loop handles it.  At each item it first
checks `now - start_time > timeout` and on expiry yields the synthetic
timeout event and breaks; a control item is skipped; a payload is yielded
(decoded or not), and a payload parsing to type `complete` or `error`
breaks the loop.  `cancelAtEnd` models an `asyncio.CancelledError`
arriving after the trace: the handler passes.  The `finally` block runs on
every exit from the generator, so every terminated run has
`cleanedUp = true`; only a run still waiting inside `listen()` has not yet
released the subscription. -/
def relayRun (timeout start : ℚ) (cancelAtEnd : Bool) :
    List (ℚ × PubsubMsg) → RelayResult
  | [] =>
    if cancelAtEnd then ⟨[], .cancelled, true⟩ else ⟨[], .listening, false⟩
  | (t, m) :: rest =>
    if timeout < t - start then ⟨[.timeoutEvt], .timedOut, true⟩
    else
      match m with
      | .control => relayRun timeout start cancelAtEnd rest
      | .message d =>
        match d with
        | .event e =>
          if isTerminal e then ⟨[.fwd (.event e)], .terminal, true⟩
          else
            let r := relayRun timeout start cancelAtEnd rest
            ⟨.fwd (.event e) :: r.output, r.exitKind, r.cleanedUp⟩
        | .invalid raw =>
          let r := relayRun timeout start cancelAtEnd rest
          ⟨.fwd (.invalid raw) :: r.output, r.exitKind, r.cleanedUp⟩

/-- Claim C6: every terminated run of the stream endpoint generator ended
in one of exactly three ways — after forwarding a terminal event (which is
then the last item yielded), after noticing the configured deadline (the
synthetic timeout event is then the last item yielded), or on caller
disconnect — and on each of these exit paths the subscription was
unsubscribed and the channel closed. -/
theorem C6_relay_exit_paths (timeout start : ℚ) (c : Bool)
    (msgs : List (ℚ × PubsubMsg)) :
    (relayRun timeout start c msgs).exitKind ≠ .listening →
      (relayRun timeout start c msgs).cleanedUp = true ∧
      ((relayRun timeout start c msgs).exitKind = .terminal ∨
        (relayRun timeout start c msgs).exitKind = .timedOut ∨
        (relayRun timeout start c msgs).exitKind = .cancelled) ∧
      ((relayRun timeout start c msgs).exitKind = .timedOut →
        (relayRun timeout start c msgs).output.getLast? = some .timeoutEvt) ∧
      ((relayRun timeout start c msgs).exitKind = .terminal →
        ∃ e, isTerminal e = true ∧
          (relayRun timeout start c msgs).output.getLast? =
            some (.fwd (.event e))) := by
  induction msgs with
  | nil =>
    intro h
    cases c with
    | false => exact absurd rfl h
    | true =>
      refine ⟨rfl, Or.inr (Or.inr rfl), fun hx => ?_, fun hx => ?_⟩ <;>
        simp [relayRun] at hx
  | cons tm rest ih =>
    obtain ⟨t, m⟩ := tm
    by_cases ht : timeout < t - start
    · intro _
      refine ⟨?_, ?_, ?_, ?_⟩ <;>
        simp [relayRun, ht]
    · cases m with
      | control =>
        simpa [relayRun, ht] using ih
      | message d =>
        cases d with
        | event e =>
          by_cases hterm : isTerminal e
          · intro _
            refine ⟨?_, ?_, ?_, ?_⟩ <;> simp [relayRun, ht, hterm]
          · intro h
            have h2 : (relayRun timeout start c rest).exitKind ≠ .listening := by
              simpa [relayRun, ht, hterm] using h
            obtain ⟨hc, hk, htm, hte⟩ := ih h2
            refine ⟨by simpa [relayRun, ht, hterm] using hc,
              by simpa [relayRun, ht, hterm] using hk, ?_, ?_⟩
            · intro hx
              have hx2 : (relayRun timeout start c rest).exitKind = .timedOut := by
                simpa [relayRun, ht, hterm] using hx
              have := htm hx2
              simp only [relayRun, if_neg ht, ht, hterm]
              simp [hterm]
              exact getLast?_cons_of_getLast? _ this
            · intro hx
              have hx2 : (relayRun timeout start c rest).exitKind = .terminal := by
                simpa [relayRun, ht, hterm] using hx
              obtain ⟨e2, he2, hlast⟩ := hte hx2
              refine ⟨e2, he2, ?_⟩
              simp only [relayRun, if_neg ht, hterm]
              simp [hterm]
              exact getLast?_cons_of_getLast? _ hlast
        | invalid raw =>
          intro h
          have h2 : (relayRun timeout start c rest).exitKind ≠ .listening := by
            simpa [relayRun, ht] using h
          obtain ⟨hc, hk, htm, hte⟩ := ih h2
          refine ⟨by simpa [relayRun, ht] using hc,
            by simpa [relayRun, ht] using hk, ?_, ?_⟩
          · intro hx
            have hx2 : (relayRun timeout start c rest).exitKind = .timedOut := by
              simpa [relayRun, ht] using hx
            have := htm hx2
            simp only [relayRun, if_neg ht]
            exact getLast?_cons_of_getLast? _ this
          · intro hx
            have hx2 : (relayRun timeout start c rest).exitKind = .terminal := by
              simpa [relayRun, ht] using hx
            obtain ⟨e2, he2, hlast⟩ := hte hx2
            refine ⟨e2, he2, ?_⟩
            simp only [relayRun, if_neg ht]
            exact getLast?_cons_of_getLast? _ hlast

theorem C6_relay_exit_paths_witness :
    (relayRun 120 0 false [(1, .message (.event (.completeStream 3)))]).cleanedUp
      = true :=
  (C6_relay_exit_paths 120 0 false [(1, .message (.event (.completeStream 3)))]
    (by norm_num [relayRun, isTerminal]; decide)).1

/-- Queue-lane derivation of the native `/chat` endpoint
(src/app/api/main.py, line 146):
`"high" if priority > 5 else "low" if priority < -5 else "default"`. -/
def chatQueue (priority : ℤ) : String :=
  if priority > 5 then "high" else if priority < -5 then "low" else "default"

/-- Queue-lane derivation of the OpenAI-compatible proxy endpoint
`/v1/chat/completions` (src/app/api/proxy.py, line 105):
`"high" if priority > 5 else "low" if priority < -5 else "default"`. -/
def proxyQueue (priority : ℤ) : String :=
  if priority > 5 then "high" else if priority < -5 then "low" else "default"

/-- Modelled from the claim C7 sentence: the lane mapping
`p > 5 → high`, `p < -5 → low`, otherwise `default`. -/
def specLane (p : ℤ) : String :=
  if p > 5 then "high" else if p < -5 then "low" else "default"

/-- Claim C7: for every priority in `[-10, 10]`, both the native `/chat`
endpoint and the proxy endpoint derive the lane exactly as the spec maps
it: high above 5, low below -5, default otherwise. -/
theorem C7_lane_derivation (p : ℤ) (h1 : -10 ≤ p) (h2 : p ≤ 10) :
    chatQueue p = specLane p ∧ proxyQueue p = specLane p ∧
    (5 < p → specLane p = "high") ∧ (p < -5 → specLane p = "low") ∧
    (-5 ≤ p → p ≤ 5 → specLane p = "default") := by
  refine ⟨rfl, rfl, fun hp => ?_, fun hp => ?_, fun hp1 hp2 => ?_⟩
  · simp [specLane, hp]
  · have : ¬ p > 5 := by omega
    simp [specLane, this, hp]
  · have hx : ¬ p > 5 := by omega
    have hy : ¬ p < -5 := by omega
    simp [specLane, hx, hy]

theorem C7_lane_derivation_witness :
    chatQueue 7 = specLane 7 ∧ proxyQueue 7 = specLane 7 ∧
    (5 < (7 : ℤ) → specLane 7 = "high") ∧ ((7 : ℤ) < -5 → specLane 7 = "low") ∧
    (-5 ≤ (7 : ℤ) → (7 : ℤ) ≤ 5 → specLane 7 = "default") :=
  C7_lane_derivation 7 (by decide) (by decide)

/-- The externally visible steps of a submit-then-stream interaction, in
program order: the `apply_async` call that makes the task leasable by any
worker, the HTTP response leaving the endpoint, and the
`pubsub.subscribe` on the session channel. -/
inductive SubmitAction where
  | enqueueTask
  | returnResponse
  | subscribeChannel
deriving DecidableEq, Repr

/-- Program order of the proxy streaming flow
(src/app/api/proxy.py, lines 89-137): `chat_completion_task.apply_async`
runs at line 108, the `StreamingResponse` is returned at line 117, and
`pubsub.subscribe` runs inside `_stream_response` (line 134) only once the
response body is consumed. -/
def proxyStreamFlow : List SubmitAction :=
  [.enqueueTask, .returnResponse, .subscribeChannel]

/-- Program order of the native flow (src/app/api/main.py): POST `/chat`
calls `apply_async` (line 160) and returns the `stream_url`; the caller
then issues GET `/stream/{session_id}`, whose generator calls
`pubsub.subscribe` (line 214). -/
def chatThenStreamFlow : List SubmitAction :=
  [.enqueueTask, .returnResponse, .subscribeChannel]

/-- What a subscriber that joins after `k` events have already been
published on a Redis pub/sub channel observes: only the later events —
the channel has no replay. -/
def observedFrom (k : ℕ) (published : List StreamEvent) : List StreamEvent :=
  published.drop k

/-- Claim C8 `counterexample`: in neither flow does the subscribe precede
the enqueue — `apply_async` comes strictly first in both the proxy
streaming flow and the native submit-then-stream flow, so the
subscription is not established before the task can be leased, refuting
the claim at these two concrete flows. -/
theorem C8_subscribe_order_counterexample :
    ¬ (proxyStreamFlow.indexOf .subscribeChannel <
        proxyStreamFlow.indexOf .enqueueTask) ∧
    ¬ (chatThenStreamFlow.indexOf .subscribeChannel <
        chatThenStreamFlow.indexOf .enqueueTask) := by
  decide

/-- Claim C8 as amended: in both flows the task is enqueued strictly
before the relay subscription is established, so a worker may lease the
task and publish events first; a subscriber that joins only after the
attempt's events were published observes none of them and in particular
misses the terminal event. -/
theorem C8_enqueue_before_subscribe :
    proxyStreamFlow.indexOf .enqueueTask <
      proxyStreamFlow.indexOf .subscribeChannel ∧
    chatThenStreamFlow.indexOf .enqueueTask <
      chatThenStreamFlow.indexOf .subscribeChannel ∧
    observedFrom (attemptEvents "t" (.streamOk [some "a"])).length
        (attemptEvents "t" (.streamOk [some "a"])) = [] ∧
    0 < (attemptEvents "t" (.streamOk [some "a"])).countP isTerminal := by
  refine ⟨by decide, by decide, ?_, ?_⟩ <;> decide

/-- The embeddings endpoint `create_embeddings` (src/app/api/main.py,
lines 254-263): more than 100 texts is rejected with HTTP 400 before any
task is enqueued; otherwise a `batch_embeddings` task is enqueued and a
`queued` response with the task id is returned.  The second component
records whether `apply_async` ran. -/
inductive EmbResponse where
  | httpError (code : ℕ) (detail : String)
  | queued (task_id : String) (status_url : String)
deriving DecidableEq, Repr

def create_embeddings (texts : List String) (task_id : String) :
    EmbResponse × Bool :=
  if texts.length > 100 then
    (.httpError 400 "Maximum 100 textes par requête", false)
  else
    (.queued task_id ("/embeddings/" ++ task_id), true)

/-- Claim C9: a request with more than 100 texts is rejected with HTTP 400
and enqueues nothing; a request with at most 100 texts (the empty list
included) enqueues a batch_embeddings task and answers `queued` with the
task id. -/
theorem C9_embeddings_limit (texts : List String) (tid : String) :
    (100 < texts.length →
      create_embeddings texts tid =
        (.httpError 400 "Maximum 100 textes par requête", false)) ∧
    (texts.length ≤ 100 →
      create_embeddings texts tid =
        (.queued tid ("/embeddings/" ++ tid), true)) := by
  constructor
  · intro h
    simp [create_embeddings, h]
  · intro h
    have : ¬ texts.length > 100 := by omega
    simp [create_embeddings, this]

theorem C9_embeddings_limit_witness :
    create_embeddings (List.replicate 101 "x") "t" =
      (.httpError 400 "Maximum 100 textes par requête", false) ∧
    create_embeddings [] "t" = (.queued "t" ("/embeddings/" ++ "t"), true) :=
  ⟨(C9_embeddings_limit (List.replicate 101 "x") "t").1 (by simp),
   (C9_embeddings_limit [] "t").2 (by simp)⟩

end LlmMq
